import Mathlib

/-!
Verification of the arxivwatch repository: a shallow embedding, in Lean 4, of
the orchestration in `src/arxivwatch/main.py`, the ledger in
`src/arxivwatch/storage.py`, the feed aggregation and identifier extraction in
`src/arxivwatch/rss.py`, and the PDF truncation in `src/arxivwatch/pdf.py`.

External collaborators (HTTP transfer, the generative-AI call, SMTP delivery,
base64 byte encoding, JSON text encoding) are modelled at their interface
boundary: fallible calls become `Except`-valued fields of an environment
record, and the on-disk ledger file becomes an explicit `FileState` value.
All modelled control flow and data manipulation is translated directly from
the Python source.
-/

namespace ArxivWatch

/-! ## JSON values and the ledger file (storage.py)

The ledger file is JSON.  The model restricts the JSON value grammar to the
fragment the program manipulates: strings, arrays and objects.  A file on disk
is either missing, unparseable as JSON (`json.load` raises
`json.JSONDecodeError`), or holds a parsed JSON value. -/
/-- A parsed JSON value (restricted to the fragment relevant to the ledger:
strings, arrays, objects). -/
inductive Json where
  | str (s : String)
  | arr (elems : List Json)
  | obj (fields : List (String × Json))

/-- The state of the ledger file on disk. -/
inductive FileState where
  | missing
  | invalidJson
  | json (v : Json)

/-- Python exceptions that `PaperStorage.load_notified_ids` can let escape
(only `json.JSONDecodeError` and `OSError` are caught by the source). -/
inductive PyErr where
  | attributeError
  | typeError
deriving DecidableEq

/-- Python `dict.get(key, default)` on a dict built by `json.load` from an
object literal: duplicate keys resolve to the last occurrence. -/
def dictGet (fields : List (String × Json)) (key : String) (deflt : Json) : Json :=
  (fields.foldl (fun acc kv => if kv.1 = key then some kv.2 else acc) none).getD deflt

/-- Helper for `pySet`: a JSON array whose elements are all strings, as a
string list (`none` when some element is not a string). -/
def strListOf : List Json → Option (List String)
  | [] => some []
  | .str s :: rest => (strListOf rest).map (fun l => s :: l)
  | .arr _ :: _ => none
  | .obj _ :: _ => none

/-- Python `set(x)` applied to a decoded JSON value, at the `set[str]`
interface of the ledger: an all-string array yields the set of its elements;
an array holding an array or object raises `TypeError` (unhashable); a string
yields the set of its one-character substrings; an object yields the set of
its keys. -/
def pySet : Json → Except PyErr (Finset String)
  | .arr elems =>
    match strListOf elems with
    | some l => .ok l.toFinset
    | none => .error .typeError
  | .str s => .ok ((s.toList.map (fun c => String.mk [c])).toFinset)
  | .obj fields => .ok ((fields.map Prod.fst).toFinset)

/-- `PaperStorage.load_notified_ids` (storage.py lines 23-45): missing file
and JSON-undecodable content both recover to the empty set; on a decoded
value the source runs `set(data.get("notified_ids", []))`, where `data.get`
raises `AttributeError` when the decoded top level is not an object (only
`json.JSONDecodeError` and `OSError` are caught). -/
def load_notified_ids : FileState → Except PyErr (Finset String)
  | .missing => .ok ∅
  | .invalidJson => .ok ∅
  | .json v =>
    match v with
    | .obj fields => pySet (dictGet fields "notified_ids" (.arr []))
    | _ => .error .attributeError

/-- The ids of a ledger set in the order Python `sorted` produces
(ascending). -/
def sortedIds (notified_ids : Finset String) : List String :=
  notified_ids.sort (· ≤ ·)

/-- The JSON value `PaperStorage.save_notified_ids` (storage.py lines 47-68)
writes: `{"notified_ids": sorted(notified_ids)}`.  The `OSError` branch (log
and re-raise) is modelled in the orchestrator environment. -/
def save_notified_ids (notified_ids : Finset String) : Json :=
  .obj [("notified_ids", .arr ((sortedIds notified_ids).map .str))]

/-! ## Papers (rss.py) and PDF handling (pdf.py) -/
/-- The `Paper` dataclass of rss.py (after `__post_init__`, so `categories`
is always a list). -/
structure Paper where
  id : String
  title : String
  abstract : String
  link : String
  authors : List String
  published : String
  categories : List String
  announce_type : Option String
deriving DecidableEq

/-- A downloaded PDF document, modelled at the interface boundary as its
list of pages (page content opaque). -/
abbrev Pdf := List String

/-- The base64 transport encoding of a PDF, modelled opaquely as an
injective wrapper around the encoded document (`encode_pdf_base64` in
pdf.py is a bijective byte-level re-encoding by an external library). -/
structure EncodedPdf where
  content : Pdf
deriving DecidableEq

/-- `get_pdf_url` (pdf.py lines 13-22): replace `/abs/` with `/pdf/` in the
abstract URL and append `.pdf`. -/
def get_pdf_url (arxiv_url : String) : String :=
  (arxiv_url.replace "/abs/" "/pdf/") ++ ".pdf"

/-- `extract_first_page` (pdf.py lines 62-91): compute
`pages_to_extract = min(num_pages, len(reader.pages))` and copy the pages
with indices `0 .. pages_to_extract - 1` into the output document. -/
def extract_first_page (pdf_content : Pdf) (num_pages : Nat) : Pdf :=
  pdf_content.take (min num_pages pdf_content.length)

/-- `encode_pdf_base64` (pdf.py lines 94-103), modelled opaquely. -/
def encode_pdf_base64 (pdf_content : Pdf) : EncodedPdf :=
  ⟨pdf_content⟩

/-! ## Paper identifier extraction (rss.py line 105)

The source computes
`entry.id.split("/abs/")[-1] if "abs" in entry.id else entry.id`.
Python strings are modelled as character lists; `str.split` with the fixed
non-empty separator `"/abs/"` is modelled by a fuelled left-to-right scan
(fuel equal to the input length always suffices and keeps the recursion
structural). -/
/-- The separator `"/abs/"` as a character list. -/
def absSep : List Char := ['/', 'a', 'b', 's', '/']

/-- The substring `"abs"` as a character list. -/
def absWord : List Char := ['a', 'b', 's']

/-- Python substring containment (the `in` operator on strings), on
character lists. -/
def containsSeq (sep : List Char) : List Char → Bool
  | [] => sep.isEmpty
  | c :: rest => sep.isPrefixOf (c :: rest) || containsSeq sep rest

/-- Python `s.split("/abs/")` on character lists: scan left to right; at a
separator occurrence, close the current part, consume the separator and
continue.  The fuel argument keeps the recursion structural. -/
def splitAbsF : Nat → List Char → List (List Char)
  | _, [] => [[]]
  | 0, c :: rest => [c :: rest]
  | fuel + 1, c :: rest =>
    if absSep.isPrefixOf (c :: rest) then
      [] :: splitAbsF fuel ((c :: rest).drop absSep.length)
    else
      match splitAbsF fuel rest with
      | [] => [[c]]
      | t :: ts => (c :: t) :: ts

/-- Python `s.split("/abs/")` on character lists. -/
def splitAbs (l : List Char) : List (List Char) := splitAbsF l.length l

/-- Python `xs[-1]` on the result of a split (a split result is never the
empty list, so the default is irrelevant). -/
def pyLast (parts : List (List Char)) : List Char := parts.getLast?.getD []

/-- Re-interleave the separator between split parts (the specification of
what a split decomposes). -/
def joinSep : List (List Char) → List Char
  | [] => []
  | [x] => x
  | x :: xs => x ++ absSep ++ joinSep xs

/-- `_parse_entry` (rss.py line 105): the extracted paper id, on character
lists. -/
def extract_paper_id (entry_id : List Char) : List Char :=
  if containsSeq absWord entry_id then pyLast (splitAbs entry_id) else entry_id

/-- String-level wrapper of `extract_paper_id`. -/
def extract_paper_id_str (entry_id : String) : String :=
  String.mk (extract_paper_id entry_id.toList)

/-! ## Orchestration (main.py)

`main()` is modelled as a pure function of the initial ledger file state and
an environment holding the outcome of each effectful collaborator call:
configuration loading, the per-feed fetch results, the per-paper pipeline
calls, and whether the final ledger write succeeds. -/
/-- The configuration fields the orchestrator consumes (config.py). -/
structure Settings where
  gemini_pdf_pages : Nat
deriving DecidableEq

/-- The fallible external collaborators of the per-paper pipeline (the
pdf.py download, `PaperSummarizer.summarize`, `EmailNotifier.send_notification`),
modelled at their interface boundary; an error value carries the exception
message. -/
structure PipelineEnv where
  download_pdf : String → String → Except String Pdf
  summarize : Paper → EncodedPdf → Except String String
  send_notification : Paper → String → Except String Unit

/-- The effectful context of one `main()` run.  `save_fail_file` is the
unspecified on-disk content left behind when the final write fails
(`open("w")` truncates before `json.dump` runs). -/
structure MainEnv where
  settings : Except String Settings
  feedResults : List (Except String (List Paper))
  pipeline : PipelineEnv
  save_ok : Bool
  save_fail_file : FileState

/-- `RSSFeedParser.fetch_papers` (rss.py lines 43-68): accumulate the papers
of each feed that fetches successfully; a failing feed contributes zero
papers and is only logged. -/
def fetch_papers (feedResults : List (Except String (List Paper))) : List Paper :=
  feedResults.foldl
    (fun all_papers r =>
      match r with
      | .ok papers => all_papers ++ papers
      | .error _ => all_papers)
    []

/-- The body of the per-paper try block (main.py lines 101-122), steps a-e:
resolve the PDF URL, download, truncate, encode, summarize, notify.  The
first step failure escapes as the exception value. -/
def process_paper (pl : PipelineEnv) (stg : Settings) (paper : Paper) :
    Except String String := do
  let pdf_url := get_pdf_url paper.link
  let pdf_content ← pl.download_pdf paper.id pdf_url
  let first_pages := extract_first_page pdf_content stg.gemini_pdf_pages
  let pdf_base64 := encode_pdf_base64 first_pages
  let summary ← pl.summarize paper pdf_base64
  let _ ← pl.send_notification paper summary
  pure summary

/-- In-memory state threaded through the per-paper loop of main.py: the
notified-ids set, the papers successfully notified (in order), and the
logged per-paper failures as `(paper_id, error)` pairs. -/
structure LoopState where
  notified_ids : Finset String
  notified : List Paper
  failures : List (String × String)

/-- One iteration of the loop at main.py lines 100-130: on success the paper
is notified and (outside the first-run path, line 119) its id is added; on
any failure the error is logged with the paper id and the loop continues. -/
def process_step (pl : PipelineEnv) (stg : Settings) (is_first_run : Bool)
    (st : LoopState) (paper : Paper) : LoopState :=
  match process_paper pl stg paper with
  | .ok _ =>
      { st with
        notified := st.notified ++ [paper]
        notified_ids :=
          if is_first_run then st.notified_ids else insert paper.id st.notified_ids }
  | .error e => { st with failures := st.failures ++ [(paper.id, e)] }

/-- The whole per-paper loop (main.py lines 100-130). -/
def process_papers (pl : PipelineEnv) (stg : Settings) (is_first_run : Bool)
    (papers_to_process : List Paper) (init : Finset String) : LoopState :=
  papers_to_process.foldl (process_step pl stg is_first_run)
    { notified_ids := init, notified := [], failures := [] }

/-- main.py line 74: the stable filter of not-yet-notified papers. -/
def new_papers_of (papers : List Paper) (notified_ids : Finset String) : List Paper :=
  papers.filter (fun p => decide (p.id ∉ notified_ids))

/-- main.py lines 90-94: Python
`sorted(new_papers, key=lambda p: p.published, reverse=True)`, a stable
descending sort on the `published` field. -/
def sortPublishedDesc (papers : List Paper) : List Paper :=
  papers.mergeSort (fun a b => decide (b.published ≤ a.published))

/-- main.py line 64 and line 85: the first-run special case applies when the
loaded ledger was empty and there are new papers. -/
def first_run_case (notified_ids0 : Finset String) (new_papers : List Paper) : Bool :=
  decide (notified_ids0.card = 0) && !new_papers.isEmpty

/-- main.py lines 83-94: the processing list (`[:1]` of the descending sort
on the first-run path, all new papers otherwise). -/
def papers_to_process_of (fr : Bool) (new_papers : List Paper) : List Paper :=
  if fr then (sortPublishedDesc new_papers).take 1 else new_papers

/-- main.py lines 95-97: on the first-run path, every new paper id is added
to the in-memory ledger before the processing loop starts. -/
def premark (fr : Bool) (new_papers : List Paper)
    (notified_ids : Finset String) : Finset String :=
  if fr then new_papers.foldl (fun ids p => insert p.id ids) notified_ids
  else notified_ids

/-- Observable outcome of one `main()` run.  `exit_ok = false` is the
`sys.exit(1)` path (main.py lines 141-143); `file` is the ledger file state
after the run; `final_ids` is the in-memory ledger set when the run ends
(`∅` on the two fatal paths that end before the ledger is loaded); `saved`
is the set persisted by a successful final write, `none` when no write
succeeded. -/
structure RunReport where
  exit_ok : Bool
  file : FileState
  notified : List Paper
  paper_failures : List (String × String)
  final_ids : Finset String
  saved : Option (Finset String)

/-- The report of a run aborted by an exception before any processing. -/
def fatalReport (file0 : FileState) : RunReport :=
  { exit_ok := false, file := file0, notified := [], paper_failures := []
    final_ids := ∅, saved := none }

/-- The per-paper loop of one run as main.py composes it: filter the new
papers (line 74), decide the first-run case (lines 64, 85), pick the
processing list (lines 84-94), pre-mark on the first-run path (lines 95-97),
then run the loop (lines 100-130). -/
def loop_result (env : MainEnv) (stg : Settings) (notified_ids0 : Finset String) :
    LoopState :=
  let new_papers := new_papers_of (fetch_papers env.feedResults) notified_ids0
  let fr := first_run_case notified_ids0 new_papers
  process_papers env.pipeline stg (decide (notified_ids0.card = 0))
    (papers_to_process_of fr new_papers) (premark fr new_papers notified_ids0)

/-- main.py lines 66-139, after configuration and ledger load succeeded:
empty fetch returns early (lines 69-71) leaving the file untouched;
otherwise the loop runs and the ledger is saved (line 133), a save failure
reaching the fatal handler. -/
def run_core (env : MainEnv) (file0 : FileState) (stg : Settings)
    (notified_ids0 : Finset String) : RunReport :=
  if (fetch_papers env.feedResults).isEmpty then
    { exit_ok := true, file := file0, notified := [], paper_failures := []
      final_ids := notified_ids0, saved := none }
  else if env.save_ok then
    { exit_ok := true
      file := .json (save_notified_ids (loop_result env stg notified_ids0).notified_ids)
      notified := (loop_result env stg notified_ids0).notified
      paper_failures := (loop_result env stg notified_ids0).failures
      final_ids := (loop_result env stg notified_ids0).notified_ids
      saved := some (loop_result env stg notified_ids0).notified_ids }
  else
    { exit_ok := false
      file := env.save_fail_file
      notified := (loop_result env stg notified_ids0).notified
      paper_failures := (loop_result env stg notified_ids0).failures
      final_ids := (loop_result env stg notified_ids0).notified_ids
      saved := none }

/-- `main` (main.py lines 36-143): configuration errors and a ledger-load
exception reach the outer handler (`sys.exit(1)`); otherwise the run
proceeds through `run_core`. -/
def main_run (env : MainEnv) (file0 : FileState) : RunReport :=
  match env.settings with
  | .error _ => fatalReport file0
  | .ok stg =>
    match load_notified_ids file0 with
    | .error _ => fatalReport file0
    | .ok notified_ids0 => run_core env file0 stg notified_ids0

/-- The logged message of a failed pipeline result (empty on success; only
used on failures). -/
def errMsg (r : Except String String) : String :=
  match r with
  | .error e => e
  | .ok _ => ""

/-- Example paper A (published earlier than B). -/
def paperA : Paper :=
  { id := "2401.00001", title := "A", abstract := "", link := "http://arxiv.org/abs/2401.00001"
    authors := [], published := "2024-01-01", categories := [], announce_type := none }

/-- Example paper B (published later than A). -/
def paperB : Paper :=
  { id := "2401.00002", title := "B", abstract := "", link := "http://arxiv.org/abs/2401.00002"
    authors := [], published := "2024-01-02", categories := [], announce_type := none }

/-- A pipeline in which every step succeeds. -/
def okPipeline : PipelineEnv :=
  { download_pdf := fun _ _ => .ok ["page"]
    summarize := fun _ _ => .ok "summary"
    send_notification := fun _ _ => .ok () }

/-- A pipeline in which the download for paper A fails and everything
else succeeds. -/
def failAPipeline : PipelineEnv :=
  { download_pdf := fun pid _ =>
      if pid = "2401.00001" then .error "download failed" else .ok ["page"]
    summarize := fun _ _ => .ok "summary"
    send_notification := fun _ _ => .ok () }

/-- A healthy environment fetching papers A and B from one feed. -/
def envOkAB : MainEnv :=
  { settings := .ok ⟨20⟩
    feedResults := [.ok [paperA, paperB]]
    pipeline := okPipeline
    save_ok := true
    save_fail_file := .invalidJson }

/-- Like `envOkAB` but the download for paper A fails. -/
def envFailA : MainEnv :=
  { settings := .ok ⟨20⟩
    feedResults := [.ok [paperA, paperB]]
    pipeline := failAPipeline
    save_ok := true
    save_fail_file := .invalidJson }

/-- An environment in which both configured feeds fail. -/
def envFeedsFail : MainEnv :=
  { settings := .ok ⟨20⟩
    feedResults := [.error "boom", .error "burn"]
    pipeline := okPipeline
    save_ok := true
    save_fail_file := .invalidJson }

/-- A ledger file already holding one unrelated id. -/
def fileSeed : FileState :=
  .json (.obj [("notified_ids", .arr [.str "1999.99999"])])

/-! ## Lemmas and claim theorems -/

lemma strListOf_map_str (l : List String) : strListOf (l.map .str) = some l := by
  induction l with
  | nil => rfl
  | cons x xs ih => simp [strListOf, ih]

lemma pySet_arr_strings (l : List String) :
    pySet (.arr (l.map .str)) = .ok l.toFinset := by
  simp [pySet, strListOf_map_str]

lemma load_obj (fields : List (String × Json)) :
    load_notified_ids (.json (.obj fields))
      = pySet (dictGet fields "notified_ids" (.arr [])) := rfl

lemma load_json_save (S : Finset String) :
    load_notified_ids (.json (save_notified_ids S)) = .ok S := by
  have h1 : dictGet [("notified_ids", .arr ((sortedIds S).map .str))] "notified_ids" (.arr [])
      = .arr ((sortedIds S).map .str) := by simp [dictGet]
  simp only [save_notified_ids, load_obj, h1, pySet_arr_strings]
  rw [sortedIds, Finset.sort_toFinset]

/-- C5: saving a finite set of id strings and loading it back yields an equal
set; `save (load (save S))` produces the same file content as `save S`; and
the persisted representation is a JSON object under the key `"notified_ids"`
holding the ids in ascending sorted order. -/
theorem ledger_roundtrip (S : Finset String) :
    load_notified_ids (.json (save_notified_ids S)) = .ok S ∧
    (load_notified_ids (.json (save_notified_ids S))).map save_notified_ids
      = .ok (save_notified_ids S) ∧
    save_notified_ids S = .obj [("notified_ids", .arr ((sortedIds S).map .str))] ∧
    (sortedIds S).Sorted (· ≤ ·) := by
  refine ⟨load_json_save S, ?_, rfl, Finset.sort_sorted _ _⟩
  rw [load_json_save S]
  rfl

/-- C4 (counterexample): a ledger file whose content is well-formed JSON but
not a well-formed ledger — here a top-level JSON array — is not recovered as
the empty set: `load_notified_ids` raises (`data.get` on a non-dict raises
`AttributeError`, which the source does not catch). -/
theorem load_wrong_shape_raises :
    load_notified_ids (.json (.arr [])) = .error .attributeError ∧
    load_notified_ids (.json (.arr [])) ≠ .ok ∅ := by
  exact ⟨rfl, fun h => Except.noConfusion h⟩

/-- C4 (amended): ledger load returns the empty set when the storage file is
missing and when its content cannot be decoded as JSON, and never raises in
these two cases; but content that decodes to JSON whose top level is not an
object (for example any top-level array) raises an `AttributeError` instead
of being recovered. -/
theorem load_recovery_amended :
    load_notified_ids .missing = .ok ∅ ∧
    load_notified_ids .invalidJson = .ok ∅ ∧
    ∀ elems, load_notified_ids (.json (.arr elems)) = .error .attributeError := by
  exact ⟨rfl, rfl, fun elems => rfl⟩

/-- C9: for every PDF and page limit N, truncation keeps exactly
`min N (page count)` pages, those pages are an initial segment of the
document, and when the document has fewer than N pages the whole document is
kept unchanged (the model is total, so no error is possible). -/
theorem extract_first_page_truncates (pdf : Pdf) (n : Nat) :
    (extract_first_page pdf n).length = min n pdf.length ∧
    extract_first_page pdf n <+: pdf ∧
    (pdf.length < n → extract_first_page pdf n = pdf) := by
  refine ⟨?_, ?_, ?_⟩
  · simp [extract_first_page]
  · exact List.take_prefix _ _
  · intro h
    simp [extract_first_page, Nat.min_eq_right (Nat.le_of_lt h)]

/-- C9 witness: a two-page document with limit 5 keeps both pages. -/
theorem extract_first_page_truncates_witness :
    (["p1", "p2"] : Pdf).length < 5 ∧ extract_first_page ["p1", "p2"] 5 = ["p1", "p2"] :=
  ⟨by decide, (extract_first_page_truncates ["p1", "p2"] 5).2.2 (by decide)⟩

lemma joinSep_cons_cons (x y : List Char) (ys : List (List Char)) :
    joinSep (x :: y :: ys) = x ++ absSep ++ joinSep (y :: ys) := rfl

lemma splitAbsF_ne_nil (fuel : Nat) (l : List Char) : splitAbsF fuel l ≠ [] := by
  match fuel, l with
  | _, [] => simp [splitAbsF]
  | 0, c :: rest => simp [splitAbsF]
  | fuel + 1, c :: rest =>
    simp only [splitAbsF]
    split
    · simp
    · split <;> simp

lemma containsSeq_iff (sep : List Char) : ∀ l : List Char,
    containsSeq sep l = true ↔ sep <:+: l
  | [] => by
    cases sep <;> simp [containsSeq, List.infix_nil]
  | c :: rest => by
    simp [containsSeq, List.isPrefixOf_iff_prefix, containsSeq_iff sep rest,
      List.infix_cons_iff]

lemma splitAbsF_join : ∀ (fuel : Nat) (l : List Char), l.length ≤ fuel →
    joinSep (splitAbsF fuel l) = l := by
  intro fuel
  induction fuel with
  | zero =>
    intro l hl
    have hnil : l = [] := List.eq_nil_of_length_eq_zero (Nat.le_zero.mp hl)
    subst hnil
    simp [splitAbsF, joinSep]
  | succ fuel ih =>
    intro l hl
    match l with
    | [] => simp [splitAbsF, joinSep]
    | c :: rest =>
      simp only [splitAbsF]
      by_cases hp : absSep.isPrefixOf (c :: rest)
      · rw [if_pos hp]
        obtain ⟨t, ht⟩ := List.isPrefixOf_iff_prefix.mp hp
        have hdrop : (c :: rest).drop absSep.length = t := by
          rw [← ht]; exact List.drop_left _ _
        have hlt : t.length ≤ fuel := by
          have hlen := congrArg List.length ht
          simp [absSep] at hlen
          simp only [List.length_cons] at hl
          omega
        rw [hdrop]
        obtain ⟨r, rs, hr⟩ := List.exists_cons_of_ne_nil (splitAbsF_ne_nil fuel t)
        have hjt : joinSep (splitAbsF fuel t) = t := ih t hlt
        rw [hr] at hjt ⊢
        rw [joinSep_cons_cons]
        simp only [List.nil_append]
        rw [hjt]
        exact ht
      · rw [if_neg hp]
        have hrl : rest.length ≤ fuel := by
          simp only [List.length_cons] at hl
          omega
        obtain ⟨t, ts, hts⟩ := List.exists_cons_of_ne_nil (splitAbsF_ne_nil fuel rest)
        have hjoin : joinSep (t :: ts) = rest := hts ▸ ih rest hrl
        rw [hts]
        show joinSep ((c :: t) :: ts) = c :: rest
        cases ts with
        | nil =>
          simp only [joinSep] at hjoin ⊢
          rw [hjoin]
        | cons s ss =>
          rw [joinSep_cons_cons] at hjoin ⊢
          simp only [List.cons_append, List.append_assoc] at hjoin ⊢
          rw [hjoin]

lemma splitAbsF_last_no_sep : ∀ (fuel : Nat) (l : List Char), l.length ≤ fuel →
    ¬ absSep <:+: pyLast (splitAbsF fuel l) := by
  intro fuel
  induction fuel with
  | zero =>
    intro l hl
    have hnil : l = [] := List.eq_nil_of_length_eq_zero (Nat.le_zero.mp hl)
    subst hnil
    simp [splitAbsF, pyLast, List.infix_nil, absSep]
  | succ fuel ih =>
    intro l hl
    match l with
    | [] => simp [splitAbsF, pyLast, List.infix_nil, absSep]
    | c :: rest =>
      simp only [splitAbsF]
      by_cases hp : absSep.isPrefixOf (c :: rest)
      · rw [if_pos hp]
        obtain ⟨t, ht⟩ := List.isPrefixOf_iff_prefix.mp hp
        have hdrop : (c :: rest).drop absSep.length = t := by
          rw [← ht]; exact List.drop_left _ _
        have hlt : t.length ≤ fuel := by
          have hlen := congrArg List.length ht
          simp [absSep] at hlen
          simp only [List.length_cons] at hl
          omega
        rw [hdrop]
        obtain ⟨r, rs, hr⟩ := List.exists_cons_of_ne_nil (splitAbsF_ne_nil fuel t)
        have hlast := ih t hlt
        rw [hr] at hlast ⊢
        simpa [pyLast, List.getLast?_cons_cons] using hlast
      · rw [if_neg hp]
        have hrl : rest.length ≤ fuel := by
          simp only [List.length_cons] at hl
          omega
        obtain ⟨t, ts, hts⟩ := List.exists_cons_of_ne_nil (splitAbsF_ne_nil fuel rest)
        have hlast := ih rest hrl
        rw [hts] at hlast
        rw [hts]
        show ¬ absSep <:+: pyLast ((c :: t) :: ts)
        cases ts with
        | nil =>
          have hjoin : joinSep (t :: ([] : List (List Char))) = rest :=
            hts ▸ splitAbsF_join fuel rest hrl
          simp only [joinSep] at hjoin
          subst hjoin
          simp only [pyLast, List.getLast?_singleton, Option.getD_some] at hlast ⊢
          intro hcontra
          rw [ List.infix_cons_iff] at hcontra
          rcases hcontra with hpre | hinf
          · exact hp ( List.isPrefixOf_iff_prefix.mpr hpre)
          · exact hlast hinf
        | cons s ss =>
          simpa [pyLast, List.getLast?_cons_cons] using hlast

lemma splitAbsF_no_sep : ∀ (fuel : Nat) (l : List Char), l.length ≤ fuel →
    ¬ absSep <:+: l → splitAbsF fuel l = [l] := by
  intro fuel
  induction fuel with
  | zero =>
    intro l hl _
    have hnil : l = [] := List.eq_nil_of_length_eq_zero (Nat.le_zero.mp hl)
    subst hnil
    rfl
  | succ fuel ih =>
    intro l hl hno
    match l with
    | [] => rfl
    | c :: rest =>
      simp only [splitAbsF]
      by_cases hp : absSep.isPrefixOf (c :: rest)
      · exact absurd ( List.IsPrefix.isInfix ( List.isPrefixOf_iff_prefix.mp hp)) hno
      · rw [if_neg hp]
        have hrl : rest.length ≤ fuel := by
          simp only [List.length_cons] at hl
          omega
        have hnorest : ¬ absSep <:+: rest := fun hr => hno ( List.infix_cons hr)
        rw [ih rest hrl hnorest]

lemma splitAbs_ne_nil (l : List Char) : splitAbs l ≠ [] :=
  splitAbsF_ne_nil _ _

lemma splitAbs_join (l : List Char) : joinSep (splitAbs l) = l :=
  splitAbsF_join _ _ (Nat.le_refl _)

lemma splitAbs_last_no_sep (l : List Char) : ¬ absSep <:+: pyLast (splitAbs l) :=
  splitAbsF_last_no_sep _ _ (Nat.le_refl _)

lemma splitAbs_no_sep (l : List Char) (h : ¬ absSep <:+: l) : splitAbs l = [l] :=
  splitAbsF_no_sep _ _ (Nat.le_refl _) h

lemma absWord_within_absSep : absWord <:+: absSep :=
  ⟨['/'], ['/'], rfl⟩

lemma joinSep_last : ∀ (ys : List (List Char)) (x y : List Char),
    ∃ u, joinSep (x :: y :: ys) = u ++ absSep ++ pyLast (x :: y :: ys) := by
  intro ys
  induction ys with
  | nil =>
    intro x y
    exact ⟨x, by simp [joinSep, pyLast]⟩
  | cons z zs ih =>
    intro x y
    obtain ⟨u, hu⟩ := ih y z
    refine ⟨x ++ absSep ++ u, ?_⟩
    rw [joinSep_cons_cons, hu]
    simp [pyLast, List.getLast?_cons_cons, List.append_assoc]

/-- C8: when the entry id contains `/abs/`, the extracted identifier is the
text after the final (left-to-right, non-overlapping) occurrence of `/abs/`:
the id decomposes as `u ++ "/abs/" ++ extracted` with no further `/abs/`
occurrence inside `extracted`; when the id does not contain `/abs/`, the id
is returned unchanged (this also covers ids that contain the bare substring
`abs`, for which the source still takes the split path but the split is the
identity). -/
theorem paper_id_extraction (entry_id : List Char) :
    (absSep <:+: entry_id →
      ∃ u, entry_id = u ++ absSep ++ extract_paper_id entry_id ∧
        ¬ absSep <:+: extract_paper_id entry_id) ∧
    (¬ absSep <:+: entry_id → extract_paper_id entry_id = entry_id) := by
  constructor
  · intro h
    have habs : containsSeq absWord entry_id = true :=
      (containsSeq_iff absWord entry_id).mpr ( List.IsInfix.trans absWord_within_absSep h)
    have hex : extract_paper_id entry_id = pyLast (splitAbs entry_id) := by
      simp [extract_paper_id, habs]
    have hjoin : joinSep (splitAbs entry_id) = entry_id := splitAbs_join entry_id
    have hlast : ¬ absSep <:+: pyLast (splitAbs entry_id) := splitAbs_last_no_sep entry_id
    obtain ⟨t, ts, hts⟩ := List.exists_cons_of_ne_nil (splitAbs_ne_nil entry_id)
    cases ts with
    | nil =>
      exfalso
      rw [hts] at hjoin hlast
      simp only [joinSep] at hjoin
      simp only [pyLast, List.getLast?_singleton, Option.getD_some] at hlast
      rw [← hjoin] at h
      exact hlast h
    | cons s ss =>
      obtain ⟨u, hu⟩ := joinSep_last ss t s
      refine ⟨u, ?_, hex ▸ hlast⟩
      rw [hex, hts, ← hu, ← hts, hjoin]
  · intro hn
    by_cases habs : containsSeq absWord entry_id = true
    · have hsingle : splitAbs entry_id = [entry_id] := splitAbs_no_sep entry_id hn
      simp [extract_paper_id, habs, hsingle, pyLast]
    · simp [extract_paper_id, habs]

/-- C8 witness: the spec example `http://arxiv.org/abs/2401.12345v2`
contains `/abs/`, decomposes around its final occurrence, and extracts to
`2401.12345v2`. -/
theorem paper_id_extraction_witness :
    (absSep <:+: ("http://arxiv.org/abs/2401.12345v2".toList)) ∧
    (∃ u, "http://arxiv.org/abs/2401.12345v2".toList
        = u ++ absSep ++ extract_paper_id ("http://arxiv.org/abs/2401.12345v2".toList) ∧
      ¬ absSep <:+: extract_paper_id ("http://arxiv.org/abs/2401.12345v2".toList)) ∧
    extract_paper_id_str "http://arxiv.org/abs/2401.12345v2" = "2401.12345v2" := by
  have hin : absSep <:+: ("http://arxiv.org/abs/2401.12345v2".toList) :=
    (containsSeq_iff absSep _).mp (by decide)
  exact ⟨hin, (paper_id_extraction _).1 hin, by decide⟩

lemma process_papers_notified (pl : PipelineEnv) (stg : Settings) (first : Bool) :
    ∀ (ps : List Paper) (st : LoopState),
      (ps.foldl (process_step pl stg first) st).notified
        = st.notified ++ ps.filter (fun p => (process_paper pl stg p).isOk) := by
  intro ps
  induction ps with
  | nil => intro st; simp
  | cons p rest ih =>
    intro st
    rcases hres : process_paper pl stg p with e | v
    · simp only [List.foldl_cons, process_step, hres]
      rw [ih]
      simp [List.filter_cons, hres, Except.isOk, Except.toBool]
    · simp only [List.foldl_cons, process_step, hres]
      rw [ih]
      simp [List.filter_cons, hres, Except.isOk, Except.toBool]

lemma process_papers_failures (pl : PipelineEnv) (stg : Settings) (first : Bool) :
    ∀ (ps : List Paper) (st : LoopState),
      (ps.foldl (process_step pl stg first) st).failures
        = st.failures ++
            (ps.filter (fun p => !(process_paper pl stg p).isOk)).map
              (fun p => (p.id, errMsg (process_paper pl stg p))) := by
  intro ps
  induction ps with
  | nil => intro st; simp
  | cons p rest ih =>
    intro st
    rcases hres : process_paper pl stg p with e | v
    · simp only [List.foldl_cons, process_step, hres]
      rw [ih]
      simp [List.filter_cons, hres, Except.isOk, Except.toBool, errMsg]
    · simp only [List.foldl_cons, process_step, hres]
      rw [ih]
      simp [List.filter_cons, hres, Except.isOk, Except.toBool]

lemma process_papers_ids_first (pl : PipelineEnv) (stg : Settings) :
    ∀ (ps : List Paper) (st : LoopState),
      (ps.foldl (process_step pl stg true) st).notified_ids = st.notified_ids := by
  intro ps
  induction ps with
  | nil => intro st; rfl
  | cons p rest ih =>
    intro st
    rcases hres : process_paper pl stg p with e | v
    · simp only [List.foldl_cons, process_step, hres]
      rw [ih]
    · simp only [List.foldl_cons, process_step, hres]
      rw [ih]
      simp

lemma process_papers_ids (pl : PipelineEnv) (stg : Settings) :
    ∀ (ps : List Paper) (st : LoopState),
      (ps.foldl (process_step pl stg false) st).notified_ids
        = st.notified_ids ∪
            ((ps.filter (fun p => (process_paper pl stg p).isOk)).map Paper.id).toFinset := by
  intro ps
  induction ps with
  | nil => intro st; simp
  | cons p rest ih =>
    intro st
    rcases hres : process_paper pl stg p with e | v
    · simp only [List.foldl_cons, process_step, hres]
      rw [ih]
      simp [List.filter_cons, hres, Except.isOk, Except.toBool]
    · simp only [List.foldl_cons, process_step, hres]
      rw [ih]
      have hb : (Except.ok v : Except String String).toBool = true := rfl
      simp [List.filter_cons, hres, Except.isOk, hb, List.toFinset_cons,
        Finset.insert_union, Finset.union_insert]

lemma subset_foldl_insert : ∀ (ps : List Paper) (s : Finset String),
    s ⊆ ps.foldl (fun ids p => insert p.id ids) s := by
  intro ps
  induction ps with
  | nil => intro s; exact Finset.Subset.refl s
  | cons p rest ih =>
    intro s
    exact (Finset.subset_insert p.id s).trans (ih (insert p.id s))

lemma mem_foldl_insert : ∀ (ps : List Paper) (s : Finset String) (p : Paper),
    p ∈ ps → p.id ∈ ps.foldl (fun ids q => insert q.id ids) s := by
  intro ps
  induction ps with
  | nil => intro s p hp; cases hp
  | cons q rest ih =>
    intro s p hp
    rcases List.mem_cons.mp hp with hq | hrest
    · subst hq
      exact subset_foldl_insert rest (insert p.id s) (Finset.mem_insert_self p.id s)
    · exact ih (insert q.id s) p hrest

lemma premark_subset (fr : Bool) (newP : List Paper) (L : Finset String) :
    L ⊆ premark fr newP L := by
  cases fr
  · simp [premark]
  · simpa [premark] using subset_foldl_insert newP L

lemma premark_mem (newP : List Paper) (L : Finset String) (p : Paper) (hp : p ∈ newP) :
    p.id ∈ premark true newP L := by
  simpa [premark] using mem_foldl_insert newP L p hp

lemma mem_new_papers {papers : List Paper} {L : Finset String} {p : Paper} :
    p ∈ new_papers_of papers L ↔ p ∈ papers ∧ p.id ∉ L := by
  simp [new_papers_of]

lemma new_papers_empty_ledger (papers : List Paper) :
    new_papers_of papers ∅ = papers := by
  simp [new_papers_of]

lemma mem_papers_to_process {fr : Bool} {newP : List Paper} {p : Paper}
    (hp : p ∈ papers_to_process_of fr newP) : p ∈ newP := by
  cases fr
  · simpa [papers_to_process_of] using hp
  · have h1 : p ∈ sortPublishedDesc newP := by
      simp only [papers_to_process_of, if_pos] at hp
      exact List.mem_of_mem_take hp
    exact (List.mergeSort_perm newP _).mem_iff.mp h1

lemma isEmpty_false_of_ne_nil {l : List Paper} (h : l ≠ []) : l.isEmpty = false := by
  cases l with
  | nil => exact absurd rfl h
  | cons a as => rfl

lemma main_run_eq_core {env : MainEnv} {file0 : FileState} {stg : Settings}
    {L : Finset String} (hs : env.settings = .ok stg)
    (hl : load_notified_ids file0 = .ok L) :
    main_run env file0 = run_core env file0 stg L := by
  simp only [main_run, hs, hl]

lemma run_core_empty {env : MainEnv} {file0 : FileState} {stg : Settings}
    {ids0 : Finset String} (h : fetch_papers env.feedResults = []) :
    run_core env file0 stg ids0 =
      { exit_ok := true, file := file0, notified := [], paper_failures := []
        final_ids := ids0, saved := none } := by
  simp [run_core, h]

lemma main_run_proc_fields {env : MainEnv} {file0 : FileState} {stg : Settings}
    {L : Finset String} (hs : env.settings = .ok stg)
    (hl : load_notified_ids file0 = .ok L)
    (hne : fetch_papers env.feedResults ≠ []) :
    (main_run env file0).notified = (loop_result env stg L).notified ∧
    (main_run env file0).paper_failures = (loop_result env stg L).failures ∧
    (main_run env file0).final_ids = (loop_result env stg L).notified_ids ∧
    (main_run env file0).exit_ok = env.save_ok ∧
    (main_run env file0).saved =
      (if env.save_ok then some (loop_result env stg L).notified_ids else none) ∧
    (env.save_ok = true →
      (main_run env file0).file
        = .json (save_notified_ids (loop_result env stg L).notified_ids)) := by
  rw [main_run_eq_core hs hl]
  have he := isEmpty_false_of_ne_nil hne
  cases hsave : env.save_ok <;> simp [run_core, he, hsave]

lemma mem_loop_notified {env : MainEnv} {stg : Settings} {ids0 : Finset String}
    {p : Paper} (hp : p ∈ (loop_result env stg ids0).notified) :
    p ∈ new_papers_of (fetch_papers env.feedResults) ids0 ∧
    (process_paper env.pipeline stg p).isOk = true := by
  simp only [loop_result, process_papers] at hp
  rw [process_papers_notified] at hp
  simp only [List.nil_append] at hp
  have h2 := List.mem_filter.mp hp
  exact ⟨mem_papers_to_process h2.1, h2.2⟩

lemma loop_ids_superset (env : MainEnv) (stg : Settings) (ids0 : Finset String) :
    ids0 ⊆ (loop_result env stg ids0).notified_ids := by
  simp only [loop_result, process_papers]
  cases hfr : decide (ids0.card = 0)
  · rw [process_papers_ids]
    exact (premark_subset _ _ _).trans Finset.subset_union_left
  · rw [process_papers_ids_first]
    exact premark_subset _ _ _

lemma fetch_foldl_fail :
    ∀ (rs : List (Except String (List Paper))) (acc : List Paper),
      (∀ r ∈ rs, r.isOk = false) →
      rs.foldl
        (fun all_papers r =>
          match r with
          | .ok papers => all_papers ++ papers
          | .error _ => all_papers) acc = acc := by
  intro rs
  induction rs with
  | nil => intro acc _; rfl
  | cons r rest ih =>
    intro acc hall
    rcases r with e | ps
    · exact ih acc fun q hq => hall q (List.mem_cons_of_mem _ hq)
    · have hbad := hall (.ok ps) (List.mem_cons_self _ _)
      simp [Except.isOk, Except.toBool] at hbad

lemma fetch_all_fail (rs : List (Except String (List Paper)))
    (h : ∀ r ∈ rs, r.isOk = false) : fetch_papers rs = [] :=
  fetch_foldl_fail rs [] h

lemma load_fileSeed : load_notified_ids fileSeed = .ok {"1999.99999"} := by
  have h : load_notified_ids fileSeed = .ok (["1999.99999"] : List String).toFinset := rfl
  rw [h]
  congr 1

/-- C2: the new-paper subset is exactly the stable filter of the fetched
list against the loaded ledger — it holds precisely the papers whose id is
not in the ledger, as a sublist of the fetched list (hence in the same
relative order) — and no paper whose id is in the loaded ledger is ever
notified by the run. -/
theorem new_paper_filter (papers : List Paper) (L : Finset String)
    (env : MainEnv) (file0 : FileState)
    (hl : load_notified_ids file0 = .ok L) :
    (∀ p, p ∈ new_papers_of papers L ↔ p ∈ papers ∧ p.id ∉ L) ∧
    List.Sublist (new_papers_of papers L) papers ∧
    (∀ p ∈ (main_run env file0).notified, p.id ∉ L) := by
  refine ⟨fun p => mem_new_papers, List.filter_sublist _, ?_⟩
  intro p hp
  rcases hset : env.settings with err | stg
  · simp only [main_run, hset, fatalReport] at hp
    exact absurd hp (List.not_mem_nil p)
  · by_cases hfe : fetch_papers env.feedResults = []
    · rw [main_run_eq_core hset hl, run_core_empty hfe] at hp
      exact absurd hp (List.not_mem_nil p)
    · rw [(main_run_proc_fields hset hl hfe).1] at hp
      exact (mem_new_papers.mp (mem_loop_notified hp).1).2

/-- C2 witness: with a ledger seeded with one unrelated id and a healthy
fetch of papers A and B, the filter facts and the never-renotify property
hold for the concrete run. -/
theorem new_paper_filter_witness :
    load_notified_ids fileSeed = .ok {"1999.99999"} ∧
    (∀ p, p ∈ new_papers_of [paperA, paperB] {"1999.99999"} ↔
      p ∈ [paperA, paperB] ∧ p.id ∉ ({"1999.99999"} : Finset String)) ∧
    List.Sublist (new_papers_of [paperA, paperB] {"1999.99999"}) [paperA, paperB] ∧
    (∀ p ∈ (main_run envOkAB fileSeed).notified,
      p.id ∉ ({"1999.99999"} : Finset String)) :=
  ⟨load_fileSeed,
   (new_paper_filter [paperA, paperB] {"1999.99999"} envOkAB fileSeed load_fileSeed).1,
   (new_paper_filter [paperA, paperB] {"1999.99999"} envOkAB fileSeed load_fileSeed).2.1,
   (new_paper_filter [paperA, paperB] {"1999.99999"} envOkAB fileSeed load_fileSeed).2.2⟩

/-- C7: when the aggregated fetch is empty — in particular whenever every
configured feed fails — the run terminates successfully with zero papers
processed and the ledger file is left exactly as it was (no write occurs). -/
theorem empty_fetch_noop (env : MainEnv) (file0 : FileState) (stg : Settings)
    (L : Finset String)
    (hs : env.settings = .ok stg) (hl : load_notified_ids file0 = .ok L)
    (hempty : fetch_papers env.feedResults = []) :
    (main_run env file0).exit_ok = true ∧
    (main_run env file0).file = file0 ∧
    (main_run env file0).notified = [] ∧
    (main_run env file0).paper_failures = [] ∧
    (main_run env file0).saved = none ∧
    (∀ rs : List (Except String (List Paper)),
      (∀ r ∈ rs, r.isOk = false) → fetch_papers rs = []) := by
  rw [main_run_eq_core hs hl, run_core_empty hempty]
  exact ⟨rfl, rfl, rfl, rfl, rfl, fetch_all_fail⟩

/-- C7 witness: both feeds of `envFeedsFail` fail, the fetch aggregates to
the empty list, and the concrete run is a successful no-op leaving the
seeded ledger file untouched. -/
theorem empty_fetch_noop_witness :
    fetch_papers envFeedsFail.feedResults = [] ∧
    (main_run envFeedsFail fileSeed).exit_ok = true ∧
    (main_run envFeedsFail fileSeed).file = fileSeed ∧
    (main_run envFeedsFail fileSeed).notified = [] ∧
    (main_run envFeedsFail fileSeed).saved = none := by
  have h := empty_fetch_noop envFeedsFail fileSeed ⟨20⟩ {"1999.99999"}
    rfl load_fileSeed rfl
  exact ⟨rfl, h.1, h.2.1, h.2.2.1, h.2.2.2.2.1⟩

/-- C10: within a run the in-memory ledger only grows: the loaded set is
contained in the set the run ends with, and whenever the run persists the
ledger, the saved set is that final superset, written via
`save_notified_ids`. -/
theorem ledger_monotone (env : MainEnv) (file0 : FileState) (stg : Settings)
    (L : Finset String)
    (hs : env.settings = .ok stg) (hl : load_notified_ids file0 = .ok L) :
    L ⊆ (main_run env file0).final_ids ∧
    ∀ F, (main_run env file0).saved = some F →
      L ⊆ F ∧ (main_run env file0).file = .json (save_notified_ids F) := by
  by_cases hfe : fetch_papers env.feedResults = []
  · rw [main_run_eq_core hs hl, run_core_empty hfe]
    exact ⟨Finset.Subset.refl L, fun F hF => Option.noConfusion hF⟩
  · obtain ⟨-, -, hfin, -, hsaved, hfile⟩ := main_run_proc_fields hs hl hfe
    constructor
    · rw [hfin]
      exact loop_ids_superset env stg L
    · intro F hF
      rw [hsaved] at hF
      cases hsave : env.save_ok
      · rw [hsave] at hF
        simp at hF
      · rw [hsave] at hF
        simp only [if_true] at hF
        have hFeq : (loop_result env stg L).notified_ids = F := by
          simpa using hF
        constructor
        · rw [← hFeq]
          exact loop_ids_superset env stg L
        · rw [hfile hsave, hFeq]

/-- C10 witness: for the healthy run over the seeded ledger file, the loaded
singleton set is contained in the final in-memory set and in anything the
run persists. -/
theorem ledger_monotone_witness :
    ({"1999.99999"} : Finset String) ⊆ (main_run envOkAB fileSeed).final_ids ∧
    ∀ F, (main_run envOkAB fileSeed).saved = some F →
      ({"1999.99999"} : Finset String) ⊆ F ∧
      (main_run envOkAB fileSeed).file = .json (save_notified_ids F) :=
  ledger_monotone envOkAB fileSeed ⟨20⟩ {"1999.99999"} rfl load_fileSeed

/-- C6 (counterexample to the claim as stated): with healthy configuration,
healthy feeds, a fully successful pipeline and a succeeding save, the run
still exits non-zero — because ledger load raises on wrong-shape JSON — so
a run can fail fatally on something that is neither a ledger-persistence
I/O error nor a configuration error. -/
theorem fatal_beyond_save_and_config :
    envOkAB.settings.isOk = true ∧ envOkAB.save_ok = true ∧
    (∀ r ∈ envOkAB.feedResults, r.isOk = true) ∧
    (main_run envOkAB (.json (.arr []))).exit_ok = false := by
  refine ⟨rfl, rfl, ?_, rfl⟩
  decide

/-- C6 (amended): exact fatal-failure characterization of a run: the
process exits non-zero precisely when configuration loading fails, or the
ledger load raises (wrong-shape well-formed JSON, cf. C4), or papers were
fetched and the final ledger write fails.  In particular a ledger-save
failure on a non-empty run is fatal, and per-feed or per-paper failures
alone never make the run fail. -/
theorem fatal_only_characterization (env : MainEnv) (file0 : FileState) :
    (main_run env file0).exit_ok = false ↔
      (env.settings.isOk = false ∨ (load_notified_ids file0).isOk = false ∨
        (fetch_papers env.feedResults ≠ [] ∧ env.save_ok = false)) := by
  rcases hset : env.settings with e | stg
  · simp [main_run, hset, fatalReport, Except.isOk, Except.toBool]
  · rcases hload : load_notified_ids file0 with e | L
    · simp [main_run, hset, hload, fatalReport, Except.isOk, Except.toBool]
    · rw [main_run_eq_core hset hload]
      by_cases hfe : fetch_papers env.feedResults = []
      · rw [run_core_empty hfe]
        simp [hset, hload, Except.isOk, Except.toBool, hfe]
      · have he := isEmpty_false_of_ne_nil hfe
        cases hsave : env.save_ok
        · simp [run_core, he, hsave, hset, hload, Except.isOk, Except.toBool, hfe]
        · simp [run_core, he, hsave, hset, hload, Except.isOk, Except.toBool, hfe]

/-- C6 witness: by the characterization, the healthy environment with a
missing ledger file exits zero. -/
theorem fatal_only_characterization_witness :
    (main_run envOkAB FileState.missing).exit_ok = true := by
  have h := fatal_only_characterization envOkAB FileState.missing
  cases hb : (main_run envOkAB FileState.missing).exit_ok
  · rcases h.mp hb with h1 | h2 | h3
    · exact absurd h1 (by decide)
    · exact absurd h2 (by decide)
    · exact absurd h3.2 (by decide)
  · rfl

lemma first_run_case_false {L : Finset String} (hL : L ≠ ∅) (newP : List Paper) :
    first_run_case L newP = false := by
  simp [first_run_case, Finset.card_eq_zero, hL]

lemma first_flag_false {L : Finset String} (hL : L ≠ ∅) :
    decide (L.card = 0) = false := by
  simp [Finset.card_eq_zero, hL]

lemma loop_result_nonfirst (env : MainEnv) (stg : Settings) {L : Finset String}
    (hL : L ≠ ∅) :
    loop_result env stg L =
      process_papers env.pipeline stg false
        (new_papers_of (fetch_papers env.feedResults) L) L := by
  simp only [loop_result, first_run_case_false hL, first_flag_false hL,
    papers_to_process_of, premark, Bool.false_eq_true, if_false]

/-- C3: on a non-first run the whole new-paper list is processed; the id of a paper
is added to the ledger exactly when its pipeline succeeds (exact
event characterization, plus the per-paper membership iff when the batch has
no duplicate ids); every pipeline failure is logged with the id of the paper and
the error while the loop continues; and per-paper failures never abort the run
(it exits zero whenever the final save succeeds). -/
theorem pipeline_failure_isolation (env : MainEnv) (file0 : FileState)
    (stg : Settings) (L : Finset String)
    (hs : env.settings = .ok stg) (hl : load_notified_ids file0 = .ok L)
    (hL : L ≠ ∅) (hne : fetch_papers env.feedResults ≠ []) :
    papers_to_process_of
        (first_run_case L (new_papers_of (fetch_papers env.feedResults) L))
        (new_papers_of (fetch_papers env.feedResults) L)
      = new_papers_of (fetch_papers env.feedResults) L ∧
    (main_run env file0).notified
      = (new_papers_of (fetch_papers env.feedResults) L).filter
          (fun p => (process_paper env.pipeline stg p).isOk) ∧
    (main_run env file0).final_ids
      = L ∪ (((new_papers_of (fetch_papers env.feedResults) L).filter
            (fun p => (process_paper env.pipeline stg p).isOk)).map Paper.id).toFinset ∧
    (∀ p ∈ new_papers_of (fetch_papers env.feedResults) L, ∀ e,
        process_paper env.pipeline stg p = .error e →
        (p.id, e) ∈ (main_run env file0).paper_failures) ∧
    (((new_papers_of (fetch_papers env.feedResults) L).map Paper.id).Nodup →
      ∀ p ∈ new_papers_of (fetch_papers env.feedResults) L,
        (p.id ∈ (main_run env file0).final_ids ↔
          (process_paper env.pipeline stg p).isOk = true)) ∧
    (env.save_ok = true → (main_run env file0).exit_ok = true) := by
  obtain ⟨hnot, hfail, hfin, hexit, -, -⟩ := main_run_proc_fields hs hl hne
  have hloop := loop_result_nonfirst env stg hL
  have hN : (loop_result env stg L).notified
      = (new_papers_of (fetch_papers env.feedResults) L).filter
          (fun p => (process_paper env.pipeline stg p).isOk) := by
    rw [hloop]
    simp only [process_papers]
    rw [process_papers_notified]
    simp
  have hI : (loop_result env stg L).notified_ids
      = L ∪ (((new_papers_of (fetch_papers env.feedResults) L).filter
            (fun p => (process_paper env.pipeline stg p).isOk)).map Paper.id).toFinset := by
    rw [hloop]
    simp only [process_papers]
    rw [process_papers_ids]
  have hF : (loop_result env stg L).failures
      = ((new_papers_of (fetch_papers env.feedResults) L).filter
            (fun p => !(process_paper env.pipeline stg p).isOk)).map
          (fun p => (p.id, errMsg (process_paper env.pipeline stg p))) := by
    rw [hloop]
    simp only [process_papers]
    rw [process_papers_failures]
    simp
  refine ⟨?_, ?_, ?_, ?_, ?_, ?_⟩
  · rw [first_run_case_false hL]
    rfl
  · rw [hnot, hN]
  · rw [hfin, hI]
  · intro p hp e he
    rw [hfail, hF]
    refine List.mem_map.mpr ⟨p, ?_, ?_⟩
    · refine List.mem_filter.mpr ⟨hp, ?_⟩
      rw [he]
      rfl
    · rw [he]
      rfl
  · intro hnodup p hp
    rw [hfin, hI]
    constructor
    · intro hmem
      rcases Finset.mem_union.mp hmem with hmemL | hmemS
      · exact absurd hmemL (mem_new_papers.mp hp).2
      · obtain ⟨q, hq, hqid⟩ := List.mem_map.mp (List.mem_toFinset.mp hmemS)
        have hq2 := List.mem_filter.mp hq
        have hqp : q = p := List.inj_on_of_nodup_map hnodup hq2.1 hp hqid
        rw [← hqp]
        exact hq2.2
    · intro hok
      apply Finset.mem_union_right
      apply List.mem_toFinset.mpr
      exact List.mem_map.mpr ⟨p, List.mem_filter.mpr ⟨hp, hok⟩, rfl⟩
  · intro hsv
    rw [hexit, hsv]

/-- C3 witness: with a seeded (non-empty) ledger, papers A and B and a
pipeline where the download for A fails, A and B have distinct ids, membership in
the final ledger tracks pipeline success exactly, and the run still exits
zero. -/
theorem pipeline_failure_isolation_witness :
    ((new_papers_of (fetch_papers envFailA.feedResults) {"1999.99999"}).map Paper.id).Nodup ∧
    (∀ p ∈ new_papers_of (fetch_papers envFailA.feedResults) {"1999.99999"},
      (p.id ∈ (main_run envFailA fileSeed).final_ids ↔
        (process_paper envFailA.pipeline ⟨20⟩ p).isOk = true)) ∧
    (envFailA.save_ok = true → (main_run envFailA fileSeed).exit_ok = true) := by
  refine ⟨by decide, ?_, ?_⟩
  · exact (pipeline_failure_isolation envFailA fileSeed ⟨20⟩ {"1999.99999"}
      rfl load_fileSeed (by decide) (by decide)).2.2.2.2.1 (by decide)
  · exact (pipeline_failure_isolation envFailA fileSeed ⟨20⟩ {"1999.99999"}
      rfl load_fileSeed (by decide) (by decide)).2.2.2.2.2

lemma pubDescTrans (a b c : Paper) :
    (decide (b.published ≤ a.published)) = true →
    (decide (c.published ≤ b.published)) = true →
    (decide (c.published ≤ a.published)) = true := by
  simp only [decide_eq_true_eq]
  exact fun h1 h2 => le_trans h2 h1

lemma pubDescTotal (a b : Paper) :
    ((decide (b.published ≤ a.published)) || (decide (a.published ≤ b.published))) = true := by
  simp only [Bool.or_eq_true, decide_eq_true_eq]
  exact le_total b.published a.published

lemma sortPublished_max (papers : List Paper) (hne : papers ≠ []) :
    ∃ sel tail, sortPublishedDesc papers = sel :: tail ∧
      sel ∈ papers ∧ (∀ q ∈ papers, q.published ≤ sel.published) := by
  have hperm : (sortPublishedDesc papers).Perm papers :=
    List.mergeSort_perm papers (fun a b => decide (b.published ≤ a.published))
  have hpair : List.Pairwise
      (fun a b => (decide (b.published ≤ a.published)) = true)
      (sortPublishedDesc papers) :=
    List.sorted_mergeSort pubDescTrans pubDescTotal papers
  have hsne : sortPublishedDesc papers ≠ [] := by
    intro h0
    have hlen := hperm.length_eq
    rw [h0] at hlen
    exact hne (List.eq_nil_of_length_eq_zero hlen.symm)
  obtain ⟨sel, tail, hst⟩ := List.exists_cons_of_ne_nil hsne
  rw [hst] at hperm hpair
  refine ⟨sel, tail, hst, hperm.mem_iff.mp (List.mem_cons_self sel tail), ?_⟩
  intro q hq
  rcases List.mem_cons.mp (hperm.mem_iff.mpr hq) with hq1 | hq2
  · rw [hq1]
  · exact of_decide_eq_true ((List.pairwise_cons.mp hpair).1 q hq2)

/-- C1: on a first run (the loaded ledger is empty) with a non-empty fetch,
every fetched paper is new, exactly one paper is selected for processing —
the head of the stable descending sort on `published`, so a paper with the
greatest `published` value, chosen by a deterministic function of the list —
the ids of all new papers are pre-marked in the in-memory ledger before the
loop starts and are all in the ledger the run ends with, and at most the
selected paper is notified (exactly it when its pipeline succeeds). -/
theorem first_run_bootstrap (env : MainEnv) (file0 : FileState) (stg : Settings)
    (hs : env.settings = .ok stg) (hl : load_notified_ids file0 = .ok ∅)
    (hne : fetch_papers env.feedResults ≠ []) :
    ∃ sel,
      sel ∈ fetch_papers env.feedResults ∧
      (∀ q ∈ fetch_papers env.feedResults, q.published ≤ sel.published) ∧
      papers_to_process_of
          (first_run_case ∅ (new_papers_of (fetch_papers env.feedResults) ∅))
          (new_papers_of (fetch_papers env.feedResults) ∅) = [sel] ∧
      (∀ p ∈ fetch_papers env.feedResults,
        p.id ∈ premark
          (first_run_case ∅ (new_papers_of (fetch_papers env.feedResults) ∅))
          (new_papers_of (fetch_papers env.feedResults) ∅) ∅) ∧
      (∀ p ∈ (main_run env file0).notified, p = sel) ∧
      ((process_paper env.pipeline stg sel).isOk = true →
        (main_run env file0).notified = [sel]) ∧
      (∀ p ∈ fetch_papers env.feedResults, p.id ∈ (main_run env file0).final_ids) := by
  have hNew : new_papers_of (fetch_papers env.feedResults) ∅ = fetch_papers env.feedResults :=
    new_papers_empty_ledger _
  have hfr : first_run_case ∅ (new_papers_of (fetch_papers env.feedResults) ∅) = true := by
    rw [hNew]
    simp [first_run_case, isEmpty_false_of_ne_nil hne]
  obtain ⟨sel, tail, hsort, hmem, hmax⟩ := sortPublished_max (fetch_papers env.feedResults) hne
  have hpts : papers_to_process_of
      (first_run_case ∅ (new_papers_of (fetch_papers env.feedResults) ∅))
      (new_papers_of (fetch_papers env.feedResults) ∅) = [sel] := by
    rw [hfr, hNew]
    simp [papers_to_process_of, hsort]
  have hflag : decide ((∅ : Finset String).card = 0) = true := rfl
  have hloop : loop_result env stg ∅
      = process_papers env.pipeline stg true [sel]
          (premark (first_run_case ∅ (new_papers_of (fetch_papers env.feedResults) ∅))
            (new_papers_of (fetch_papers env.feedResults) ∅) ∅) := by
    simp only [loop_result, hflag, hpts]
  obtain ⟨hnot, -, hfin, -, -, -⟩ := main_run_proc_fields hs hl hne
  have hN : (main_run env file0).notified
      = [sel].filter (fun p => (process_paper env.pipeline stg p).isOk) := by
    rw [hnot, hloop]
    simp only [process_papers]
    rw [process_papers_notified]
    simp
  have hfin2 : (main_run env file0).final_ids
      = premark (first_run_case ∅ (new_papers_of (fetch_papers env.feedResults) ∅))
          (new_papers_of (fetch_papers env.feedResults) ∅) ∅ := by
    rw [hfin, hloop]
    simp only [process_papers]
    rw [process_papers_ids_first]
  refine ⟨sel, hmem, hmax, hpts, ?_, ?_, ?_, ?_⟩
  · intro p hp
    rw [hfr]
    exact premark_mem _ _ p (by rw [hNew]; exact hp)
  · intro p hp
    rw [hN] at hp
    have h2 := List.mem_filter.mp hp
    simpa using h2.1
  · intro hok
    rw [hN]
    simp [List.filter_cons, hok]
  · intro p hp
    rw [hfin2, hfr]
    exact premark_mem _ _ p (by rw [hNew]; exact hp)

/-- C1 witness: the healthy two-paper environment on a missing ledger file
instantiates the first-run bootstrap property. -/
theorem first_run_bootstrap_witness :
    ∃ sel,
      sel ∈ fetch_papers envOkAB.feedResults ∧
      (∀ q ∈ fetch_papers envOkAB.feedResults, q.published ≤ sel.published) ∧
      papers_to_process_of
          (first_run_case ∅ (new_papers_of (fetch_papers envOkAB.feedResults) ∅))
          (new_papers_of (fetch_papers envOkAB.feedResults) ∅) = [sel] ∧
      (∀ p ∈ fetch_papers envOkAB.feedResults,
        p.id ∈ premark
          (first_run_case ∅ (new_papers_of (fetch_papers envOkAB.feedResults) ∅))
          (new_papers_of (fetch_papers envOkAB.feedResults) ∅) ∅) ∧
      (∀ p ∈ (main_run envOkAB FileState.missing).notified, p = sel) ∧
      ((process_paper envOkAB.pipeline ⟨20⟩ sel).isOk = true →
        (main_run envOkAB FileState.missing).notified = [sel]) ∧
      (∀ p ∈ fetch_papers envOkAB.feedResults,
        p.id ∈ (main_run envOkAB FileState.missing).final_ids) :=
  first_run_bootstrap envOkAB FileState.missing ⟨20⟩ rfl rfl (by decide)

end ArxivWatch
